import Mathlib

/-!
# Verification of `price_tick_conversions`

A shallow embedding of `src/extensions/price_tick_conversions.rs` of the
`uniswap-v3-sdk-rs` repository, together with theorems settling the frozen
claims about it.

Modelling conventions:
* `BigDecimal` values are embedded as `ℚ`. Addition, subtraction and
  multiplication of `BigDecimal` are exact, as is `Fraction`
  (`num-rational`); `BigDecimal` square roots are approximate, so the
  decimal square-root operation is passed in as an abstract function
  `sqrtD : ℚ → ℚ` and theorems quantify over it.  Decimal division is
  modelled as exact rational division (the crate rounds at its working
  precision); the structural claims proved below do not depend on the
  digits beyond that precision.
* The oracle tick-math library (`get_sqrt_ratio_at_tick`,
  `get_tick_at_sqrt_ratio`, `get_amount_0_delta`, `get_amount_1_delta`,
  `price_to_closest_tick`) is external to the verified file; its numeric
  tables are abstract function parameters, and the spec-stated contract
  (bounds, monotonicity, self-consistent rounding) appears as explicit
  hypotheses where a claim needs it.
* Rust `assert!` failures (unrecoverable aborts) and `unwrap` of `None`
  are embedded as `Except.error` with a dedicated constructor, so that
  "fails / never returns a value" is expressible.
* Machine integers: ticks (`I24`) are embedded as `ℤ` and sqrt ratios
  (`U160`) as `ℕ`; all in-range arithmetic of the source coincides with
  the unbounded one.
-/

namespace PriceTickConversions

/-- The `MIN_TICK` constant of the tick-math library: the smallest valid tick. -/
def MIN_TICK : ℤ := -887272

/-- The `MAX_TICK` constant of the tick-math library: the largest valid tick. -/
def MAX_TICK : ℤ := 887272

/-- The `MIN_SQRT_RATIO` constant of the tick-math library, the sqrt ratio
at `MIN_TICK` (Q64.96), named here with an `_X96` suffix. -/
def MIN_SQRT_RATIO_X96 : ℕ := 4295128739

/-- The `MAX_SQRT_RATIO` constant of the tick-math library, the sqrt ratio
at `MAX_TICK` (Q64.96). -/
def MAX_SQRT_RATIO_X96 : ℕ := 1461446703485210103287273052203988822378723970342

/-- The constant `Q96 = 2^96`. -/
def Q96 : ℕ := 2 ^ 96

/-- The constant `Q192 = 2^192`. -/
def Q192 : ℕ := 2 ^ 192

/-- Failure modes of the embedded functions.  `Error::InvalidRange` of the
source is `InvalidRange`; a Rust `assert!`/`unwrap` abort is `Abort`; oracle
failures keep their own constructors. -/
inductive Err where
  | InvalidFormat
  | InvalidRange
  | DomainViolation
  | IncomparableTokens
  | TickOutOfBound
  | OracleFailure
  | Abort
  deriving Repr, DecidableEq

/-- The token capability of `uniswap-sdk-core` as used by the source:
a chain id, an address (embedded as a number) and a decimals count. -/
structure Token where
  chainId : ℕ
  address : ℕ
  decimals : ℕ
  deriving Repr, DecidableEq

/-- The `Token::sorts_before` capability of `uniswap-sdk-core`: fails when the chain ids
differ or the addresses are equal, otherwise compares addresses. -/
def sorts_before (a b : Token) : Except Err Bool :=
  if a.chainId ≠ b.chainId then .error .IncomparableTokens
  else if a.address = b.address then .error .IncomparableTokens
  else .ok (decide (a.address < b.address))

/-- The `Price` of `uniswap-sdk-core`: an ordered token pair with an exact
big-integer numerator and denominator.  `Price::new(base, quote, denominator,
numerator)` lists the denominator first; the fields here are named. -/
structure PriceT where
  base : Token
  quote : Token
  denominator : ℤ
  numerator : ℤ
  deriving Repr, DecidableEq

/-- The `Price::as_fraction` accessor, as an exact rational. -/
def PriceT.asFraction (p : PriceT) : ℚ := (p.numerator : ℚ) / (p.denominator : ℚ)

/-- The constant `MIN_PRICE = MIN_SQRT_RATIO^2 / Q192` (source lines 16–17),
as an exact rational. -/
def MIN_PRICE : ℚ := ((MIN_SQRT_RATIO_X96 : ℚ) ^ 2) / (Q192 : ℚ)

/-- The constant `MAX_PRICE = (MAX_SQRT_RATIO^2 - 1) / Q192` (source lines
18–23). -/
def MAX_PRICE : ℚ := ((MAX_SQRT_RATIO_X96 : ℚ) ^ 2 - 1) / (Q192 : ℚ)

/-- Modelled from the spec: the oracle `get_sqrt_ratio_at_tick` is exact and
defined on `[MIN_TICK, MAX_TICK]`, failing outside.  Its numeric table is the
abstract parameter `R`; properties the spec states about it (monotonicity,
endpoint values) appear as hypotheses of the theorems that need them. -/
def get_sqrt_ratio_at_tick (R : ℤ → ℕ) (t : ℤ) : Except Err ℕ :=
  if MIN_TICK ≤ t ∧ t ≤ MAX_TICK then .ok (R t) else .error .TickOutOfBound

/-- Embedding of `sqrt_ratio_x96_to_price` (source lines 108–120): squares the sqrt ratio
exactly and orients the resulting fraction by the token sort order. -/
def sqrt_ratio_x96_to_price (x : ℕ) (base quote : Token) :
    Except Err PriceT :=
  match sorts_before base quote with
  | .error e => .error e
  | .ok true => .ok ⟨base, quote, (Q192 : ℤ), (x ^ 2 : ℕ)⟩
  | .ok false => .ok ⟨base, quote, (x ^ 2 : ℕ), (Q192 : ℤ)⟩

/-- Embedding of `tick_to_price` of the repository (outside `src/`): modelled from the
spec as the oracle sqrt ratio at the tick fed into
`sqrt_ratio_x96_to_price`. -/
def tick_to_price (R : ℤ → ℕ) (base quote : Token) (t : ℤ) :
    Except Err PriceT :=
  match get_sqrt_ratio_at_tick R t with
  | .error e => .error e
  | .ok x => sqrt_ratio_x96_to_price x base quote

/-- Embedding of `price_to_closest_tick_safe` (source lines 125–134).  The in-range
nearest-tick lookup `price_to_closest_tick` is an oracle contract and is
passed in as `closest`. -/
def price_to_closest_tick_safe (closest : PriceT → Except Err ℤ)
    (p : PriceT) : Except Err ℤ :=
  match sorts_before p.base p.quote with
  | .error e => .error e
  | .ok sorted =>
    if p.asFraction < MIN_PRICE then
      .ok (if sorted then MIN_TICK else MAX_TICK)
    else if p.asFraction > MAX_PRICE then
      .ok (if sorted then MAX_TICK else MIN_TICK)
    else closest p

/-- Embedding of `tick_to_big_price` (source lines 217–220): oracle sqrt ratio, exact
square, divided by `Q192`. -/
def tick_to_big_price (R : ℤ → ℕ) (t : ℤ) : Except Err ℚ :=
  match get_sqrt_ratio_at_tick R t with
  | .error e => .error e
  | .ok x => .ok (((x ^ 2 : ℕ) : ℚ) / (Q192 : ℚ))

/-- Embedding of `price_to_sqrt_ratio_x96` (source lines 253–264).  The `assert!` that the
price is non-negative is embedded as a `DomainViolation` error; `to_bigint`
truncates (= floor on non-negatives), `BigInt::sqrt` is the integer square
root, and the result is clamped into `[MIN_SQRT_RATIO, MAX_SQRT_RATIO]`. -/
def price_to_sqrt_ratio_x96 (price : ℚ) : Except Err ℕ :=
  if price < 0 then .error .DomainViolation
  else
    let s := Nat.sqrt (price * (Q192 : ℚ)).floor.toNat
    if s < MIN_SQRT_RATIO_X96 then .ok MIN_SQRT_RATIO_X96
    else if s > MAX_SQRT_RATIO_X96 then .ok MAX_SQRT_RATIO_X96
    else .ok s

/-- Embedding of `token0_ratio_to_price` (source lines 281–312).  The two `assert!`s are
embedded as `Abort` errors; `sqrtD` is the approximate `BigDecimal::sqrt`,
whose `unwrap` aborts exactly when the radicand is negative. -/
def token0_ratio_to_price (R : ℤ → ℕ) (sqrtD : ℚ → ℚ)
    (token0_ratio : ℚ) (tick_lower tick_upper : ℤ) : Except Err ℚ :=
  if ¬ tick_upper > tick_lower then .error .Abort
  else if token0_ratio < 0 ∨ token0_ratio > 1 then .error .Abort
  else if token0_ratio = 0 then tick_to_big_price R tick_upper
  else if token0_ratio = 1 then tick_to_big_price R tick_lower
  else
    match get_sqrt_ratio_at_tick R tick_lower with
    | .error e => .error e
    | .ok xl =>
      match get_sqrt_ratio_at_tick R tick_upper with
      | .error e => .error e
      | .ok xu =>
        let l : ℚ := (xl : ℚ) / (Q96 : ℚ)
        let u : ℚ := (xu : ℚ) / (Q96 : ℚ)
        let r := token0_ratio
        let a := r - 1
        let b := u * (1 - 2 * r)
        let c := r * l * u
        if b ^ 2 - 4 * a * c < 0 then .error .Abort
        else
          let numerator := b + sqrtD (b ^ 2 - 4 * a * c)
          let denominator := (-2 : ℚ) * a
          .ok ((numerator / denominator) ^ 2)

/-- Embedding of `token0_price_to_ratio` (source lines 328–362).  The oracle
`get_tick_at_sqrt_ratio` is `tickAt`, the oracle amount-delta functions are
`amt0`/`amt1`; the nominal liquidity is `2_u128 << 96 = 2^97`. -/
def token0_price_to_ratio_fn (R : ℤ → ℕ) (tickAt : ℕ → Except Err ℤ)
    (amt0 amt1 : ℕ → ℕ → ℕ → Bool → Except Err ℤ)
    (price : ℚ) (tick_lower tick_upper : ℤ) : Except Err ℚ :=
  if tick_upper ≤ tick_lower then .error .InvalidRange
  else
    match price_to_sqrt_ratio_x96 price with
    | .error e => .error e
    | .ok sqrt_price_x96 =>
      match tickAt sqrt_price_x96 with
      | .error e => .error e
      | .ok tick =>
        if tick < tick_lower then .ok 1
        else if tick ≥ tick_upper then .ok 0
        else
          let liquidity : ℕ := 2 ^ 97
          match get_sqrt_ratio_at_tick R tick_upper with
          | .error e => .error e
          | .ok xu =>
            match amt0 sqrt_price_x96 xu liquidity false with
            | .error e => .error e
            | .ok amount0 =>
              match get_sqrt_ratio_at_tick R tick_lower with
              | .error e => .error e
              | .ok xl =>
                match amt1 xl sqrt_price_x96 liquidity false with
                | .error e => .error e
                | .ok amount1 =>
                  let value0 := (amount0 : ℚ) * price
                  .ok (value0 / (value0 + (amount1 : ℚ)))

/-- Truncation of a rational toward zero, the behaviour of
`BigDecimal::to_bigint`. -/
def ratTrunc (q : ℚ) : ℤ := if q < 0 then -((-q).floor) else q.floor

/-- Modelled from the repository's big-integer utilities: conversion of a
big integer into a `U160`, wrapping modulo `2^160`. -/
def u160_from_big_int (z : ℤ) : ℕ := (z % (2 ^ 160 : ℤ)).toNat

/-- Embedding of `tick_range_from_width_and_ratio` (source lines 401–429),
named with an `_fn` suffix.  `tickAt` is the oracle
`get_tick_at_sqrt_ratio`, `sqrtD` the approximate `BigDecimal::sqrt`. -/
def tick_range_from_width_and_ratio_fn (R : ℤ → ℕ)
    (tickAt : ℕ → Except Err ℤ) (sqrtD : ℚ → ℚ)
    (width tick_current : ℤ) (token0_ratio : ℚ) : Except Err (ℤ × ℤ) :=
  if token0_ratio < 0 ∨ token0_ratio > 1 then .error .Abort
  else if token0_ratio = 0 then .ok (tick_current - width, tick_current)
  else if token0_ratio = 1 then .ok (tick_current, tick_current + width)
  else
    match tick_to_big_price R tick_current with
    | .error e => .error e
    | .ok price =>
      if price < 0 then .error .Abort
      else
        let a := token0_ratio
        let b := (1 - a * 2) * sqrtD price
        match tick_to_big_price R width with
        | .error e => .error e
        | .ok pw =>
          if pw < 0 then .error .Abort
          else
            let c := price * (a - 1) / sqrtD pw
            if b * b - a * c * 4 < 0 then .error .Abort
            else
              let price_lower_sqrt := (sqrtD (b * b - a * c * 4) - b) / (a * 2)
              let sqrt_ratio_lower_x96 := price_lower_sqrt * (Q96 : ℚ)
              match tickAt (u160_from_big_int (ratTrunc sqrt_ratio_lower_x96)) with
              | .error e => .error e
              | .ok tick_lower => .ok (tick_lower, tick_lower + width)

/-- The regex `^\d*\.?\d+$` of `parse_price` as a Boolean matcher over the
character list: either a nonempty digit string, or digits, one dot, then at
least one digit. -/
def matchesNumRe (s : List Char) : Bool :=
  if s.any (fun c => c == '.') then
    (s.takeWhile (fun c => c != '.')).all Char.isDigit &&
      ((s.dropWhile (fun c => c != '.')).drop 1).all Char.isDigit &&
      !((s.dropWhile (fun c => c != '.')).drop 1).isEmpty &&
      !((s.dropWhile (fun c => c != '.')).drop 1).any (fun c => c == '.')
  else !s.isEmpty && s.all Char.isDigit

/-- The numeric value of a digit string, as computed by
`BigInt::from_str`. -/
def digitsToNat (l : List Char) : ℕ :=
  l.foldl (fun acc c => acc * 10 + (c.toNat - 48)) 0

/-- Embedding of `parse_price` (source lines 51–77): validate against the
grammar, split
at the first dot into whole and fractional digits, and build the exact
rational `Price` with
`numerator = digits(whole ++ fraction) * 10^quote.decimals` and
`denominator = 10^(fraction length + base.decimals)`. -/
def parse_price (base_token quote_token : Token) (price : List Char) :
    Except Err PriceT :=
  if !matchesNumRe price then .error .InvalidFormat
  else
    let whole := price.takeWhile (fun c => c != '.')
    let fraction := (price.dropWhile (fun c => c != '.')).drop 1
    let decimals := fraction.length
    let without_decimals : ℤ := (digitsToNat (whole ++ fraction) : ℤ)
    let numerator := without_decimals * (10 : ℤ) ^ quote_token.decimals
    let denominator := (10 : ℤ) ^ (decimals + base_token.decimals)
    .ok ⟨base_token, quote_token, denominator, numerator⟩

/-! ## Shared witness fixtures -/

/-- A concrete token for witnesses (chain 1, address 1, 8 decimals). -/
def tokenA : Token := ⟨1, 1, 8⟩

/-- A concrete token for witnesses (chain 1, address 2, 18 decimals). -/
def tokenB : Token := ⟨1, 2, 18⟩

/-! ## Claims -/

/-- C8: for every negative decimal price, `price_to_sqrt_ratio_x96` fails
with `DomainViolation` (the Rust `assert!` abort) and never returns a
value. -/
theorem C8_price_to_sqrt_ratio_x96_negative (price : ℚ) (h : price < 0) :
    price_to_sqrt_ratio_x96 price = .error .DomainViolation := by
  simp [price_to_sqrt_ratio_x96, h]

/-- Witness for C8 at the concrete price `-1`. -/
theorem C8_price_to_sqrt_ratio_x96_negative_witness :
    price_to_sqrt_ratio_x96 (-1) = .error .DomainViolation :=
  C8_price_to_sqrt_ratio_x96_negative (-1) (by norm_num)

/-- C10: `price_to_sqrt_ratio_x96` accepts the zero price and returns
`MIN_SQRT_RATIO` for it, and every non-negative input yields a result inside
`[MIN_SQRT_RATIO, MAX_SQRT_RATIO]`. -/
theorem C10_price_to_sqrt_ratio_x96_zero_and_clamped :
    price_to_sqrt_ratio_x96 0 = .ok MIN_SQRT_RATIO_X96 ∧
    ∀ price : ℚ, 0 ≤ price → ∃ n : ℕ, price_to_sqrt_ratio_x96 price = .ok n ∧
      MIN_SQRT_RATIO_X96 ≤ n ∧ n ≤ MAX_SQRT_RATIO_X96 := by
  have hminmax : MIN_SQRT_RATIO_X96 ≤ MAX_SQRT_RATIO_X96 := by
    norm_num [MIN_SQRT_RATIO_X96, MAX_SQRT_RATIO_X96]
  constructor
  · unfold price_to_sqrt_ratio_x96
    rw [if_neg (by norm_num : ¬ (0 : ℚ) < 0)]
    simp only [zero_mul, show Rat.floor (0 : ℚ) = 0 from rfl, Int.toNat_zero,
      Nat.sqrt_zero]
    rw [if_pos (by norm_num [MIN_SQRT_RATIO_X96])]
  · intro price hp
    unfold price_to_sqrt_ratio_x96
    rw [if_neg (not_lt.mpr hp)]
    by_cases h1 : Nat.sqrt (price * (Q192 : ℚ)).floor.toNat < MIN_SQRT_RATIO_X96
    · exact ⟨MIN_SQRT_RATIO_X96, by simp [h1], le_refl _, hminmax⟩
    · by_cases h2 : Nat.sqrt (price * (Q192 : ℚ)).floor.toNat > MAX_SQRT_RATIO_X96
      · exact ⟨MAX_SQRT_RATIO_X96, by simp [h1, h2], hminmax, le_refl _⟩
      · exact ⟨Nat.sqrt (price * (Q192 : ℚ)).floor.toNat, by simp [h1, h2],
          not_lt.mp h1, not_lt.mp h2⟩

/-- Witness for C10 at the concrete price `0`. -/
theorem C10_price_to_sqrt_ratio_x96_zero_and_clamped_witness :
    ∃ n : ℕ, price_to_sqrt_ratio_x96 0 = .ok n ∧
      MIN_SQRT_RATIO_X96 ≤ n ∧ n ≤ MAX_SQRT_RATIO_X96 :=
  C10_price_to_sqrt_ratio_x96_zero_and_clamped.2 0 (by norm_num)

/-- C7: for every price and every tick pair with `tick_upper ≤ tick_lower`,
`token0_price_to_ratio` fails with `InvalidRange` without performing any
computation on the price (the price, the oracles and the sign of the price
are all irrelevant). -/
theorem C7_token0_price_to_ratio_invalid_range
    (R : ℤ → ℕ) (tickAt : ℕ → Except Err ℤ)
    (amt0 amt1 : ℕ → ℕ → ℕ → Bool → Except Err ℤ)
    (price : ℚ) (tick_lower tick_upper : ℤ)
    (h : tick_upper ≤ tick_lower) :
    token0_price_to_ratio_fn R tickAt amt0 amt1 price tick_lower tick_upper =
      .error .InvalidRange := by
  simp [token0_price_to_ratio_fn, h]

/-- Witness for C7: a degenerate range and a negative price (which would
abort in `price_to_sqrt_ratio_x96` had the price been touched). -/
theorem C7_token0_price_to_ratio_invalid_range_witness :
    token0_price_to_ratio_fn (fun _ => 0) (fun _ => .ok 0)
      (fun _ _ _ _ => .ok 0) (fun _ _ _ _ => .ok 0) (-5) 3 3 =
      .error .InvalidRange :=
  C7_token0_price_to_ratio_invalid_range _ _ _ _ (-5) 3 3 (by norm_num)

/-- C3: for every tick pair with `tick_lower < tick_upper`,
`token0_ratio_to_price` with ratio exactly `0` returns
`tick_to_big_price tick_upper`, and with ratio exactly `1` returns
`tick_to_big_price tick_lower`. -/
theorem C3_token0_ratio_to_price_boundaries (R : ℤ → ℕ) (sqrtD : ℚ → ℚ)
    (tick_lower tick_upper : ℤ) (h : tick_lower < tick_upper) :
    token0_ratio_to_price R sqrtD 0 tick_lower tick_upper =
      tick_to_big_price R tick_upper ∧
    token0_ratio_to_price R sqrtD 1 tick_lower tick_upper =
      tick_to_big_price R tick_lower := by
  unfold token0_ratio_to_price
  constructor
  · rw [if_neg (not_not_intro h)]
    norm_num
  · rw [if_neg (not_not_intro h)]
    norm_num

/-- Witness for C3 on the range `[0, 1]` with a trivial oracle table. -/
theorem C3_token0_ratio_to_price_boundaries_witness :
    token0_ratio_to_price (fun _ => 1) (fun _ => 0) 0 0 1 =
      tick_to_big_price (fun _ => 1) 1 ∧
    token0_ratio_to_price (fun _ => 1) (fun _ => 0) 1 0 1 =
      tick_to_big_price (fun _ => 1) 0 :=
  C3_token0_ratio_to_price_boundaries (fun _ => 1) (fun _ => 0) 0 1
    (by norm_num)

/-- C2: for `0 < r < 1` and `tick_lower < tick_upper` (in oracle bounds,
with positive oracle sqrt ratios), `token0_ratio_to_price` returns the
square of the positive quadratic root `(b + sqrt(b^2 - 4*a*c)) / (-2*a)`
where `a = r - 1`, `b = u * (1 - 2*r)`, `c = r * l * u`, and `l`, `u` are
the unit-less decimal sqrt prices at `tick_lower` and `tick_upper`. -/
theorem C2_token0_ratio_to_price_quadratic (R : ℤ → ℕ) (sqrtD : ℚ → ℚ)
    (r : ℚ) (tick_lower tick_upper : ℤ)
    (hr0 : 0 < r) (hr1 : r < 1)
    (hlo : MIN_TICK ≤ tick_lower) (hhi : tick_upper ≤ MAX_TICK)
    (hlt : tick_lower < tick_upper)
    (hl : 0 < R tick_lower) (hu : 0 < R tick_upper) :
    token0_ratio_to_price R sqrtD r tick_lower tick_upper =
      .ok ((((R tick_upper : ℚ) / (Q96 : ℚ) * (1 - 2 * r) +
          sqrtD (((R tick_upper : ℚ) / (Q96 : ℚ) * (1 - 2 * r)) ^ 2 -
            4 * (r - 1) *
              (r * ((R tick_lower : ℚ) / (Q96 : ℚ)) *
                ((R tick_upper : ℚ) / (Q96 : ℚ))))) /
        ((-2) * (r - 1))) ^ 2) := by
  have hsl : get_sqrt_ratio_at_tick R tick_lower = .ok (R tick_lower) := by
    unfold get_sqrt_ratio_at_tick
    rw [if_pos ⟨hlo, hlt.le.trans hhi⟩]
  have hsu : get_sqrt_ratio_at_tick R tick_upper = .ok (R tick_upper) := by
    unfold get_sqrt_ratio_at_tick
    rw [if_pos ⟨hlo.trans hlt.le, hhi⟩]
  have hlq : (0 : ℚ) < (R tick_lower : ℚ) / (Q96 : ℚ) :=
    div_pos (by exact_mod_cast hl) (by norm_num [Q96])
  have huq : (0 : ℚ) < (R tick_upper : ℚ) / (Q96 : ℚ) :=
    div_pos (by exact_mod_cast hu) (by norm_num [Q96])
  have hc : (0 : ℚ) <
      r * ((R tick_lower : ℚ) / (Q96 : ℚ)) * ((R tick_upper : ℚ) / (Q96 : ℚ)) :=
    mul_pos (mul_pos hr0 hlq) huq
  have ha : r - 1 < 0 := by linarith
  have hdisc : ¬ (((R tick_upper : ℚ) / (Q96 : ℚ) * (1 - 2 * r)) ^ 2 -
      4 * (r - 1) *
        (r * ((R tick_lower : ℚ) / (Q96 : ℚ)) *
          ((R tick_upper : ℚ) / (Q96 : ℚ))) < 0) := by
    have h4 : (r - 1) *
        (r * ((R tick_lower : ℚ) / (Q96 : ℚ)) * ((R tick_upper : ℚ) / (Q96 : ℚ))) < 0 :=
      mul_neg_of_neg_of_pos ha hc
    push_neg
    nlinarith [sq_nonneg ((R tick_upper : ℚ) / (Q96 : ℚ) * (1 - 2 * r))]
  unfold token0_ratio_to_price
  rw [if_neg (not_not_intro hlt),
    if_neg (by push_neg; exact ⟨hr0.le, hr1.le⟩), if_neg hr0.ne', if_neg hr1.ne,
    hsl, hsu]
  dsimp only
  rw [if_neg hdisc]

/-- A trivial oracle sqrt-ratio table for witnesses. -/
def oneTable : ℤ → ℕ := fun _ => 1

/-- A trivial decimal square-root stand-in for witnesses. -/
def zeroSqrt : ℚ → ℚ := fun _ => 0

/-- Witness for C2 on the range `[0, 1]` with ratio `1/2`. -/
theorem C2_token0_ratio_to_price_quadratic_witness :
    token0_ratio_to_price oneTable zeroSqrt (1 / 2) 0 1 =
      .ok ((((oneTable 1 : ℚ) / (Q96 : ℚ) * (1 - 2 * (1 / 2)) +
          zeroSqrt (((oneTable 1 : ℚ) / (Q96 : ℚ) * (1 - 2 * (1 / 2))) ^ 2 -
            4 * ((1 / 2 : ℚ) - 1) *
              ((1 / 2 : ℚ) * ((oneTable 0 : ℚ) / (Q96 : ℚ)) *
                ((oneTable 1 : ℚ) / (Q96 : ℚ))))) /
        ((-2) * ((1 / 2 : ℚ) - 1))) ^ 2) :=
  C2_token0_ratio_to_price_quadratic oneTable zeroSqrt (1 / 2) 0 1
    (by norm_num) (by norm_num) (by norm_num [MIN_TICK]) (by norm_num [MAX_TICK])
    (by norm_num) (by norm_num [oneTable]) (by norm_num [oneTable])

/-- C6: whenever `tick_range_from_width_and_ratio` succeeds (for a positive
width), the returned pair satisfies `tick_upper - tick_lower = width`
exactly. -/
theorem C6_tick_range_width_exact (R : ℤ → ℕ) (tickAt : ℕ → Except Err ℤ)
    (sqrtD : ℚ → ℚ) (width tick_current : ℤ) (token0_ratio : ℚ)
    (tick_lower tick_upper : ℤ) (hw : 0 < width)
    (h : tick_range_from_width_and_ratio_fn R tickAt sqrtD width tick_current
        token0_ratio = .ok (tick_lower, tick_upper)) :
    tick_upper - tick_lower = width := by
  unfold tick_range_from_width_and_ratio_fn at h
  split at h
  · exact Except.noConfusion h
  split at h
  · simp only [Except.ok.injEq, Prod.mk.injEq] at h
    omega
  split at h
  · simp only [Except.ok.injEq, Prod.mk.injEq] at h
    omega
  split at h
  · exact Except.noConfusion h
  split at h
  · exact Except.noConfusion h
  split at h
  · exact Except.noConfusion h
  split at h
  · exact Except.noConfusion h
  dsimp only [] at h
  split at h
  · exact Except.noConfusion h
  split at h
  · exact Except.noConfusion h
  simp only [Except.ok.injEq, Prod.mk.injEq] at h
  omega

/-- Witness for C6 with ratio `0`, width `5`, current tick `0`. -/
theorem C6_tick_range_width_exact_witness : (0 : ℤ) - (-5) = 5 :=
  C6_tick_range_width_exact oneTable (fun _ => .ok 0) zeroSqrt 5 0 0 (-5) 0
    (by norm_num) (by norm_num [tick_range_from_width_and_ratio_fn])

/-- A digit character is not the dot. -/
lemma digit_bne_dot {c : Char} (h : c.isDigit = true) : (c != '.') = true := by
  by_cases hc : c = '.'
  · subst hc
    exact absurd h (by decide)
  · simp [bne_iff_ne, hc]

/-- A digit string contains no dot. -/
lemma no_dot_of_digits (f : List Char) (hf : f.all Char.isDigit = true) :
    f.any (fun c => c == '.') = false := by
  rw [List.all_eq_true] at hf
  rw [List.any_eq_false]
  intro c hc
  have h1 := digit_bne_dot (hf c hc)
  simpa [bne] using h1

/-- Splitting `w ++ '.' :: rest` at the first dot when `w` is all digits. -/
lemma split_at_dot (w rest : List Char) (hw : w.all Char.isDigit = true) :
    (w ++ '.' :: rest).takeWhile (fun c => c != '.') = w ∧
    (w ++ '.' :: rest).dropWhile (fun c => c != '.') = '.' :: rest := by
  induction w with
  | nil => constructor <;> simp [List.takeWhile, List.dropWhile]
  | cons c cs ih =>
    rw [List.all_cons, Bool.and_eq_true] at hw
    obtain ⟨hc, hcs⟩ := hw
    have h1 : (c != '.') = true := digit_bne_dot hc
    obtain ⟨iht, ihd⟩ := ih hcs
    constructor
    · simpa [List.takeWhile_cons, h1] using iht
    · simpa [List.dropWhile_cons, h1] using ihd

/-- A dotless digit string survives `takeWhile` whole. -/
lemma split_no_dot (w : List Char) (hw : w.all Char.isDigit = true) :
    w.takeWhile (fun c => c != '.') = w ∧
    w.dropWhile (fun c => c != '.') = [] := by
  induction w with
  | nil => constructor <;> rfl
  | cons c cs ih =>
    rw [List.all_cons, Bool.and_eq_true] at hw
    obtain ⟨hc, hcs⟩ := hw
    have h1 : (c != '.') = true := digit_bne_dot hc
    obtain ⟨iht, ihd⟩ := ih hcs
    constructor
    · simpa [List.takeWhile_cons, h1] using iht
    · simpa [List.dropWhile_cons, h1] using ihd

/-- C9: on every string accepted by the grammar (digits, then optionally a
dot and at least one digit), `parse_price` returns the exact rational whose
numerator is the concatenated whole-and-fraction digit value times
`10^quote.decimals` and whose denominator is
`10^(fraction length + base.decimals)`; in particular `"10.23"` with
`base.decimals = 8`, `quote.decimals = 18` yields the rational equal to
`10.23 * 10^18 / 10^8`. -/
theorem C9_parse_price_exact (base_token quote_token : Token) :
    (∀ w f : List Char, w.all Char.isDigit = true → f.all Char.isDigit = true →
        f ≠ [] →
        parse_price base_token quote_token (w ++ '.' :: f) =
          .ok ⟨base_token, quote_token,
            (10 : ℤ) ^ (f.length + base_token.decimals),
            (digitsToNat (w ++ f) : ℤ) * (10 : ℤ) ^ quote_token.decimals⟩) ∧
    (∀ w : List Char, w.all Char.isDigit = true → w ≠ [] →
        parse_price base_token quote_token w =
          .ok ⟨base_token, quote_token, (10 : ℤ) ^ base_token.decimals,
            (digitsToNat w : ℤ) * (10 : ℤ) ^ quote_token.decimals⟩) ∧
    (base_token.decimals = 8 → quote_token.decimals = 18 →
      ∃ p : PriceT,
        parse_price base_token quote_token ['1', '0', '.', '2', '3'] = .ok p ∧
        p.asFraction = 10.23 * 10 ^ 18 / 10 ^ 8) := by
  have part1 : ∀ w f : List Char, w.all Char.isDigit = true →
      f.all Char.isDigit = true → f ≠ [] →
      parse_price base_token quote_token (w ++ '.' :: f) =
        .ok ⟨base_token, quote_token,
          (10 : ℤ) ^ (f.length + base_token.decimals),
          (digitsToNat (w ++ f) : ℤ) * (10 : ℤ) ^ quote_token.decimals⟩ := by
    intro w f hw hf hne
    obtain ⟨ht, hd⟩ := split_at_dot w f hw
    have hm : matchesNumRe (w ++ '.' :: f) = true := by
      unfold matchesNumRe
      rw [if_pos (by simp [List.any_append])]
      rw [ht, hd]
      simp [hw, hf, hne, no_dot_of_digits f hf]
    unfold parse_price
    rw [hm]
    dsimp only []
    rw [ht, hd]
    simp
  have part2 : ∀ w : List Char, w.all Char.isDigit = true → w ≠ [] →
      parse_price base_token quote_token w =
        .ok ⟨base_token, quote_token, (10 : ℤ) ^ base_token.decimals,
          (digitsToNat w : ℤ) * (10 : ℤ) ^ quote_token.decimals⟩ := by
    intro w hw hne
    obtain ⟨ht, hd⟩ := split_no_dot w hw
    have hm : matchesNumRe w = true := by
      unfold matchesNumRe
      rw [if_neg (by rw [no_dot_of_digits w hw]; exact Bool.false_ne_true)]
      simp [hw, hne]
    unfold parse_price
    rw [hm]
    dsimp only []
    rw [ht, hd]
    simp
  refine ⟨part1, part2, ?_⟩
  intro h8 h18
  have hinst := part1 ['1', '0'] ['2', '3'] (by decide) (by decide) (by decide)
  refine ⟨_, hinst, ?_⟩
  rw [PriceT.asFraction]
  rw [h8, h18]
  norm_num [show digitsToNat ['1', '0', '2', '3'] = 1023 from rfl]

/-- Witness for C9 on the string `"1.5"`. -/
theorem C9_parse_price_exact_witness :
    parse_price tokenA tokenB ['1', '.', '5'] =
      .ok ⟨tokenA, tokenB, (10 : ℤ) ^ (1 + tokenA.decimals),
        (digitsToNat ['1', '5'] : ℤ) * (10 : ℤ) ^ tokenB.decimals⟩ :=
  (C9_parse_price_exact tokenA tokenB).1 ['1'] ['5'] (by decide) (by decide)
    (by decide)

/-- C5: for a price below `MIN_PRICE`, `price_to_closest_tick_safe` returns
`MIN_TICK` when the base token sorts before the quote token and `MAX_TICK`
otherwise; above `MAX_PRICE` it mirrors; for in-range prices it delegates to
the oracle nearest-tick lookup. -/
theorem C5_price_to_closest_tick_safe_clamps (closest : PriceT → Except Err ℤ)
    (p : PriceT) (sorted : Bool)
    (hs : sorts_before p.base p.quote = .ok sorted) :
    (p.asFraction < MIN_PRICE →
      price_to_closest_tick_safe closest p =
        .ok (if sorted then MIN_TICK else MAX_TICK)) ∧
    (p.asFraction > MAX_PRICE →
      price_to_closest_tick_safe closest p =
        .ok (if sorted then MAX_TICK else MIN_TICK)) ∧
    (MIN_PRICE ≤ p.asFraction → p.asFraction ≤ MAX_PRICE →
      price_to_closest_tick_safe closest p = closest p) := by
  have hmm : MIN_PRICE < MAX_PRICE := by
    rw [MIN_PRICE, MAX_PRICE,
      div_lt_div_iff₀ (by norm_num [Q192]) (by norm_num [Q192])]
    norm_num [MIN_SQRT_RATIO_X96, MAX_SQRT_RATIO_X96, Q192]
  unfold price_to_closest_tick_safe
  rw [hs]
  dsimp only []
  refine ⟨?_, ?_, ?_⟩
  · intro h
    rw [if_pos h]
  · intro h
    rw [if_neg (not_lt.mpr (le_of_lt (hmm.trans h))), if_pos h]
  · intro h1 h2
    rw [if_neg (not_lt.mpr h1), if_neg (not_lt.mpr h2)]

/-- A concrete price with fraction `0` for the C5 witness. -/
def pLow : PriceT := ⟨tokenA, tokenB, 1, 0⟩

/-- A concrete delegate lookup for the C5 witness. -/
def closestConst : PriceT → Except Err ℤ := fun _ => .ok 7

/-- Witness for C5: the zero-fraction price clamps to `MIN_TICK` for sorted
tokens. -/
theorem C5_price_to_closest_tick_safe_clamps_witness :
    price_to_closest_tick_safe closestConst pLow = .ok MIN_TICK :=
  (C5_price_to_closest_tick_safe_clamps closestConst pLow true rfl).1
    (by norm_num [PriceT.asFraction, pLow, MIN_PRICE, MIN_SQRT_RATIO_X96, Q192])

/-- Clearing denominators in a comparison of natural-valued rationals. -/
lemma q_div_lt_div (a b c d : ℕ) (hb : 0 < b) (hd : 0 < d) :
    ((a : ℚ) / (b : ℚ) < (c : ℚ) / (d : ℚ)) ↔ a * d < c * b := by
  rw [div_lt_div_iff₀ (by exact_mod_cast hb) (by exact_mod_cast hd)]
  exact_mod_cast Iff.rfl

/-- Rewriting `MIN_PRICE` with a natural-number numerator. -/
lemma MIN_PRICE_eq :
    MIN_PRICE = ((MIN_SQRT_RATIO_X96 ^ 2 : ℕ) : ℚ) / ((Q192 : ℕ) : ℚ) := by
  unfold MIN_PRICE
  push_cast
  ring

/-- Rewriting `MAX_PRICE` with a natural-number numerator. -/
lemma MAX_PRICE_eq :
    MAX_PRICE = ((MAX_SQRT_RATIO_X96 ^ 2 - 1 : ℕ) : ℚ) / ((Q192 : ℕ) : ℚ) := by
  unfold MAX_PRICE
  rw [Nat.cast_sub (by norm_num [MAX_SQRT_RATIO_X96])]
  push_cast
  ring

/-- C4: for every tick `t` in `[MIN_TICK, MAX_TICK]`, converting `t` to a
rational `Price` and applying `price_to_closest_tick_safe` returns exactly
`t`.  The oracle contract appears as hypotheses: the sqrt-ratio table is
strictly monotone on the tick range with the global constants at the
endpoints, satisfies the boundary product bound
`R a * MIN_SQRT_RATIO ≤ 2^192` below `MAX_TICK`, and the nearest-tick
lookup is self-consistent on in-range prices. -/
theorem C4_tick_price_roundtrip (R : ℤ → ℕ) (closest : PriceT → Except Err ℤ)
    (base quote : Token) (t : ℤ) (p : PriceT)
    (hmono : ∀ a b : ℤ, MIN_TICK ≤ a → a < b → b ≤ MAX_TICK → R a < R b)
    (hmin : R MIN_TICK = MIN_SQRT_RATIO_X96)
    (hmax : R MAX_TICK = MAX_SQRT_RATIO_X96)
    (hprod : ∀ a : ℤ, MIN_TICK ≤ a → a < MAX_TICK →
      R a * MIN_SQRT_RATIO_X96 ≤ Q192)
    (hround : ∀ a : ℤ, ∀ q : PriceT, MIN_TICK ≤ a → a ≤ MAX_TICK →
      tick_to_price R base quote a = .ok q →
      MIN_PRICE ≤ q.asFraction → q.asFraction ≤ MAX_PRICE →
      closest q = .ok a)
    (ht1 : MIN_TICK ≤ t) (ht2 : t ≤ MAX_TICK)
    (hp : tick_to_price R base quote t = .ok p) :
    price_to_closest_tick_safe closest p = .ok t := by
  have hQ : 0 < Q192 := by norm_num [Q192]
  have hRge : MIN_SQRT_RATIO_X96 ≤ R t := by
    rcases eq_or_lt_of_le ht1 with h | h
    · rw [← h, hmin]
    · exact le_of_lt (hmin ▸ hmono MIN_TICK t le_rfl h ht2)
  have hRposn : 0 < R t :=
    lt_of_lt_of_le (by norm_num [MIN_SQRT_RATIO_X96]) hRge
  have hp0 := hp
  unfold tick_to_price get_sqrt_ratio_at_tick at hp
  rw [if_pos ⟨ht1, ht2⟩] at hp
  dsimp only [] at hp
  unfold sqrt_ratio_x96_to_price at hp
  cases hsb : sorts_before base quote with
  | error e =>
    rw [hsb] at hp
    exact Except.noConfusion hp
  | ok s =>
    rw [hsb] at hp
    cases s with
    | true =>
      dsimp only [] at hp
      injection hp with hp1
      subst hp1
      unfold price_to_closest_tick_safe
      dsimp only []
      rw [hsb]
      dsimp only []
      have hfrac :
          PriceT.asFraction ⟨base, quote, (Q192 : ℤ), ((R t ^ 2 : ℕ) : ℤ)⟩ =
            ((R t ^ 2 : ℕ) : ℚ) / ((Q192 : ℕ) : ℚ) := by
        unfold PriceT.asFraction
        push_cast
        ring
      have hNotLow :
          ¬ PriceT.asFraction ⟨base, quote, (Q192 : ℤ), ((R t ^ 2 : ℕ) : ℤ)⟩ <
            MIN_PRICE := by
        rw [hfrac, MIN_PRICE_eq, q_div_lt_div _ _ _ _ hQ hQ]
        exact not_lt.mpr
          (Nat.mul_le_mul_right _ (Nat.pow_le_pow_left hRge 2))
      rw [if_neg hNotLow]
      by_cases hHigh :
          PriceT.asFraction ⟨base, quote, (Q192 : ℤ), ((R t ^ 2 : ℕ) : ℤ)⟩ >
            MAX_PRICE
      · rw [if_pos hHigh]
        have h2 : MAX_SQRT_RATIO_X96 ^ 2 - 1 < R t ^ 2 := by
          rw [hfrac, MAX_PRICE_eq, gt_iff_lt, q_div_lt_div _ _ _ _ hQ hQ]
            at hHigh
          exact lt_of_mul_lt_mul_right hHigh (le_of_lt hQ)
        have hteq : t = MAX_TICK := by
          by_contra hne
          have htlt : t < MAX_TICK := lt_of_le_of_ne ht2 hne
          have hRlt : R t < MAX_SQRT_RATIO_X96 :=
            hmax ▸ hmono t MAX_TICK ht1 htlt le_rfl
          have hle : R t ≤ MAX_SQRT_RATIO_X96 - 1 := Nat.le_sub_one_of_lt hRlt
          have hsq : R t ^ 2 ≤ (MAX_SQRT_RATIO_X96 - 1) ^ 2 :=
            Nat.pow_le_pow_left hle 2
          have hlit : (MAX_SQRT_RATIO_X96 - 1) ^ 2 ≤ MAX_SQRT_RATIO_X96 ^ 2 - 1 := by
            norm_num [MAX_SQRT_RATIO_X96]
          linarith
        subst hteq
        simp
      · rw [if_neg hHigh]
        exact hround t _ ht1 ht2 hp0 (not_lt.mp hNotLow) (not_lt.mp hHigh)
    | false =>
      dsimp only [] at hp
      injection hp with hp1
      subst hp1
      unfold price_to_closest_tick_safe
      dsimp only []
      rw [hsb]
      dsimp only []
      have hsqpos : 0 < R t ^ 2 := Nat.pos_pow_of_pos 2 hRposn
      have hfrac :
          PriceT.asFraction ⟨base, quote, ((R t ^ 2 : ℕ) : ℤ), (Q192 : ℤ)⟩ =
            ((Q192 : ℕ) : ℚ) / ((R t ^ 2 : ℕ) : ℚ) := by
        unfold PriceT.asFraction
        push_cast
        ring
      by_cases hLow :
          PriceT.asFraction ⟨base, quote, ((R t ^ 2 : ℕ) : ℤ), (Q192 : ℤ)⟩ <
            MIN_PRICE
      · rw [if_pos hLow]
        have h2 : Q192 * Q192 < MIN_SQRT_RATIO_X96 ^ 2 * R t ^ 2 := by
          rw [hfrac, MIN_PRICE_eq, q_div_lt_div _ _ _ _ hsqpos hQ] at hLow
          exact hLow
        have hteq : t = MAX_TICK := by
          by_contra hne
          have htlt : t < MAX_TICK := lt_of_le_of_ne ht2 hne
          have hpr := hprod t ht1 htlt
          have hsq : R t * MIN_SQRT_RATIO_X96 * (R t * MIN_SQRT_RATIO_X96) ≤
              Q192 * Q192 := Nat.mul_le_mul hpr hpr
          have hcomm : MIN_SQRT_RATIO_X96 ^ 2 * R t ^ 2 =
              R t * MIN_SQRT_RATIO_X96 * (R t * MIN_SQRT_RATIO_X96) := by
            ring
          linarith
        subst hteq
        simp
      · rw [if_neg hLow]
        have hNotHigh :
            ¬ PriceT.asFraction ⟨base, quote, ((R t ^ 2 : ℕ) : ℤ), (Q192 : ℤ)⟩ >
              MAX_PRICE := by
          rw [hfrac, MAX_PRICE_eq, gt_iff_lt, q_div_lt_div _ _ _ _ hQ hsqpos]
          have h4 : (MAX_SQRT_RATIO_X96 ^ 2 - 1) * MIN_SQRT_RATIO_X96 ^ 2 ≤
              (MAX_SQRT_RATIO_X96 ^ 2 - 1) * R t ^ 2 :=
            Nat.mul_le_mul_left _ (Nat.pow_le_pow_left hRge 2)
          have h3 : Q192 * Q192 ≤
              (MAX_SQRT_RATIO_X96 ^ 2 - 1) * MIN_SQRT_RATIO_X96 ^ 2 := by
            norm_num [MAX_SQRT_RATIO_X96, MIN_SQRT_RATIO_X96, Q192]
          linarith
        rw [if_neg hNotHigh]
        exact hround t _ ht1 ht2 hp0 (not_lt.mp hLow) (not_lt.mp hNotHigh)

/-- A concrete strictly monotone sqrt-ratio table for the C4 witness:
linear below `MAX_TICK`, jumping to the global maximum at `MAX_TICK`. -/
def tickTable : ℤ → ℕ := fun t =>
  if t = MAX_TICK then MAX_SQRT_RATIO_X96
  else (t + 887272).toNat + MIN_SQRT_RATIO_X96

/-- A concrete nearest-tick lookup inverting `tickTable` for the C4
witness. -/
def closestTable : PriceT → Except Err ℤ := fun q =>
  let s := Nat.sqrt q.numerator.toNat
  .ok (if s = MAX_SQRT_RATIO_X96 then MAX_TICK
    else (s : ℤ) - (MIN_SQRT_RATIO_X96 : ℤ) - 887272)

/-- Witness for C4 at tick `0` for the concrete oracle table. -/
theorem C4_tick_price_roundtrip_witness :
    price_to_closest_tick_safe closestTable
      ⟨tokenA, tokenB, (Q192 : ℤ), ((tickTable 0 ^ 2 : ℕ) : ℤ)⟩ = .ok 0 :=
  C4_tick_price_roundtrip tickTable closestTable tokenA tokenB 0
    ⟨tokenA, tokenB, (Q192 : ℤ), ((tickTable 0 ^ 2 : ℕ) : ℤ)⟩
    (by
      intro a b ha hab hb
      simp only [MIN_TICK] at ha
      simp only [MAX_TICK] at hb
      simp only [tickTable, MAX_TICK, MIN_SQRT_RATIO_X96, MAX_SQRT_RATIO_X96]
      split_ifs <;> omega)
    (by decide)
    (by decide)
    (by
      intro a ha hab
      simp only [MIN_TICK] at ha
      simp only [MAX_TICK] at hab
      simp only [tickTable, MAX_TICK, MIN_SQRT_RATIO_X96]
      rw [if_neg (by omega)]
      have h2 : (a + 887272).toNat + 4295128739 ≤ 4296903282 := by omega
      calc ((a + 887272).toNat + 4295128739) * 4295128739
          ≤ 4296903282 * 4295128739 := Nat.mul_le_mul_right _ h2
        _ ≤ Q192 := by norm_num [Q192])
    (by
      intro a q ha hb hq hq1 hq2
      unfold tick_to_price get_sqrt_ratio_at_tick at hq
      rw [if_pos ⟨ha, hb⟩] at hq
      dsimp only [] at hq
      unfold sqrt_ratio_x96_to_price at hq
      rw [show sorts_before tokenA tokenB = .ok true from rfl] at hq
      dsimp only [] at hq
      injection hq with hq'
      subst hq'
      unfold closestTable
      dsimp only []
      rw [Int.toNat_natCast, Nat.sqrt_eq']
      by_cases hamax : a = MAX_TICK
      · subst hamax
        norm_num [tickTable]
      · simp only [tickTable]
        rw [if_neg hamax,
          if_neg (by
            simp only [MIN_TICK] at ha
            simp only [MAX_TICK] at hb hamax
            simp only [MIN_SQRT_RATIO_X96, MAX_SQRT_RATIO_X96]
            omega)]
        simp only [Except.ok.injEq]
        simp only [MIN_TICK] at ha
        simp only [MIN_SQRT_RATIO_X96]
        push_cast
        omega)
    (by norm_num [MIN_TICK]) (by norm_num [MAX_TICK]) rfl
